import Mathlib

/-!
Shallow embedding of the ziggo ZigBee network registry.

The Go source consists of address value types (`DeviceAddress`, `GroupAddress`,
the `Address` interface), the `Device` record, and the `Network` registry with
its devices map, groups map, listener list and JSON persistence.

Modelling choices:
* Go `uint32`/`uint64` fields are `Nat`; no arithmetic is ever performed on
  them, so overflow never matters.
* Go maps are association lists with unique keys; `mapUpsert` prepends the new
  binding and drops the old one, which realises exactly the lookup semantics of
  a Go map assignment (iteration order of Go maps is unspecified anyway).
* Listener objects are identified by a `Nat` identity (Go compares listener
  interface values by identity in `AddNetworkListener`).  The side effect of
  invoking a listener callback is made explicit: each mutating operation
  returns, besides the new state, the ordered list of primitive `Step`s it
  performs (map write, then one `notify` per registered listener, in order).
* `fmt.Sprintf("%d", n)` is modelled by `natToDecimalString`, the standard
  base-10 big-endian rendering.
* JSON encoding of the `serializedNetwork` struct is Go standard library code,
  outside this repository; the codec is modelled at the structural level: the
  decode step of `UnmarshalJSON` is a parameter of type
  `Except String serializedNetwork` (decode failure or decoded value), and the
  registry logic after the decode is translated from the source.
* Stateful methods become explicit state passing: a Go method that mutates the
  receiver and returns `error` becomes a function `Network → ... → Network ×
  Option String`.
-/

namespace Ziggo

/-! ### Decimal rendering, modelling Go fmt `%d` -/

/-- Value of a big-endian list of decimal digits. -/
def ofDigits (l : List Nat) : Nat := l.foldl (fun acc d => acc * 10 + d) 0

/-- Fuel-driven big-endian decimal digits; fuel exceeding the number keeps the
recursion total. -/
def toDecimalDigitsAux : Nat → Nat → List Nat
  | 0, _ => []
  | fuel + 1, n => if n < 10 then [n] else toDecimalDigitsAux fuel (n / 10) ++ [n % 10]

/-- Big-endian decimal digits of `n` (`[0]` for `0`), as printed by `%d`. -/
def toDecimalDigits (n : Nat) : List Nat := toDecimalDigitsAux (n + 1) n

/-- The decimal string `%d` prints for a natural number. -/
def natToDecimalString (n : Nat) : String := ⟨(toDecimalDigits n).map Nat.digitChar⟩

/-! ### Address value types (source file: zigbee addresses) -/

/-- Go `DeviceAddress` defines a unicast ZigBee address. -/
structure DeviceAddress where
  NetworkAddress : Nat
  Endpoint : Nat
deriving DecidableEq, Repr

/-- Go `func (a DeviceAddress) IsGroup() bool { return false }` -/
def DeviceAddress.IsGroup (_ : DeviceAddress) : Bool := false

/-- Go `fmt.Sprintf("%d/%d", a.NetworkAddress, a.Endpoint)` -/
def DeviceAddress.String (a : DeviceAddress) : String :=
  natToDecimalString a.NetworkAddress ++ "/" ++ natToDecimalString a.Endpoint

/-- Go `GroupAddress` defines a group ZigBee address. -/
structure GroupAddress where
  GroupID : Nat
  Label : String
deriving DecidableEq, Repr

/-- Go `func (a GroupAddress) IsGroup() bool { return true }` -/
def GroupAddress.IsGroup (_ : GroupAddress) : Bool := true

/-- Go `fmt.Sprintf("%d/%s", a.GroupID, a.Label)` -/
def GroupAddress.String (a : GroupAddress) : String :=
  natToDecimalString a.GroupID ++ "/" ++ a.Label

/-- The `Address` interface has exactly two implementations in the package;
a value of the interface type is one of the two. -/
inductive Address where
  | device (a : DeviceAddress)
  | group (a : GroupAddress)
deriving DecidableEq, Repr

/-- Dynamic dispatch of `IsGroup()` on the interface value. -/
def Address.IsGroup : Address → Bool
  | .device a => a.IsGroup
  | .group a => a.IsGroup

/-- Dynamic dispatch of `String()` on the interface value. -/
def Address.String : Address → String
  | .device a => a.String
  | .group a => a.String

/-! ### Device record (source file: device.go) -/

/-- Go `Device` will represent a zigbee device. -/
structure Device where
  IEEEAddress : Nat
  NetworkAddress : DeviceAddress
  ProfileID : Nat
  DeviceType : Nat
  DeviceID : Nat
  ManufacturerCode : Nat
  DeviceVersion : Nat
  InputClusterIds : List Nat
  OutputClusterIds : List Nat
  Label : String
deriving DecidableEq, Repr

/-- The Go zero value of `Device` (what `return Device{}, false` yields). -/
def Device.zero : Device :=
  { IEEEAddress := 0, NetworkAddress := ⟨0, 0⟩, ProfileID := 0, DeviceType := 0,
    DeviceID := 0, ManufacturerCode := 0, DeviceVersion := 0,
    InputClusterIds := [], OutputClusterIds := [], Label := "" }

/-- The Go zero value of `GroupAddress`. -/
def GroupAddress.zero : GroupAddress := { GroupID := 0, Label := "" }

/-! ### Association-list model of Go maps -/

/-- Lookup `m[k]`. -/
def mapLookup {K V : Type} [DecidableEq K] : List (K × V) → K → Option V
  | [], _ => none
  | p :: rest, k => if p.1 = k then some p.2 else mapLookup rest k

/-- Go `delete(m, k)`: drop every binding of `k`. -/
def mapErase {K V : Type} [DecidableEq K] : List (K × V) → K → List (K × V)
  | [], _ => []
  | p :: rest, k => if p.1 = k then mapErase rest k else p :: mapErase rest k

/-- Assignment `m[k] = v`: the new binding shadows and replaces any old one. -/
def mapUpsert {K V : Type} [DecidableEq K] (m : List (K × V)) (k : K) (v : V) :
    List (K × V) :=
  (k, v) :: mapErase m k

/-- The values of the map, as iterated by `for _, v := range m`. -/
def mapValues {K V : Type} (m : List (K × V)) : List V := m.map (·.2)

/-! ### The Network registry (source file: network state) -/

/-- Identity of a `NetworkListener` interface value (Go compares them with
`==`, i.e. by identity). -/
abbrev ListenerId := Nat

/-- The kind of listener callback invoked. -/
inductive EventKind where
  | added
  | updated
  | removed
deriving DecidableEq, Repr

/-- A primitive observable step a registry mutation performs, in order:
a devices-map write or erase, or a synchronous listener callback. -/
inductive Step where
  | store (k : String) (d : Device)
  | erase (k : String)
  | notify (l : ListenerId) (kind : EventKind) (d : Device)
deriving DecidableEq, Repr

/-- Go `Network` is the ZigBee network state implementation.  The three
`sync.RWMutex` fields only serialise access and have no effect on the
sequential semantics modelled here. -/
structure Network where
  devices : List (String × Device)
  groups : List (Nat × GroupAddress)
  listeners : List ListenerId
  reset : Bool
  filePath : String
deriving DecidableEq, Repr

def defaultStateFilePath : String := "simple-network.json"

/-- Go `NewNetworkState` will create a new NetworkState instance. -/
def NewNetworkState (reset : Bool) : Network :=
  { devices := [], groups := [], listeners := [], reset := reset,
    filePath := defaultStateFilePath }

/-- Go `AddGroup` will add the group address to this network. -/
def Network.AddGroup (n : Network) (address : GroupAddress) : Network :=
  { n with groups := mapUpsert n.groups address.GroupID address }

/-- Go `UpdateGroup` will update the group address in this network. -/
def Network.UpdateGroup (n : Network) (address : GroupAddress) : Network :=
  { n with groups := mapUpsert n.groups address.GroupID address }

/-- Go `RemoveGroup` will remove a group address from this network. -/
def Network.RemoveGroup (n : Network) (address : GroupAddress) : Network :=
  { n with groups := mapErase n.groups address.GroupID }

/-- Go `Group` will retrieve the group address for supplied group id; the `Bool`
is false if the group address was not found. -/
def Network.Group (n : Network) (groupID : Nat) : GroupAddress × Bool :=
  match mapLookup n.groups groupID with
  | some address => (address, true)
  | none => (GroupAddress.zero, false)

/-- Go `Groups` returns a copy of group addresses. -/
def Network.Groups (n : Network) : List GroupAddress := mapValues n.groups

/-- Go `AddDevice` will add a new device to the network: store under
`device.NetworkAddress.String()`, then invoke `DeviceAdded` on each listener
in order.  The second component is the ordered step trace. -/
def Network.AddDevice (n : Network) (device : Device) : Network × List Step :=
  ({ n with devices := mapUpsert n.devices device.NetworkAddress.String device },
   Step.store device.NetworkAddress.String device ::
     n.listeners.map (fun l => Step.notify l .added device))

/-- Go `UpdateDevice` will update an existing device: same upsert, but the
listeners receive `DeviceUpdated`. -/
def Network.UpdateDevice (n : Network) (device : Device) : Network × List Step :=
  ({ n with devices := mapUpsert n.devices device.NetworkAddress.String device },
   Step.store device.NetworkAddress.String device ::
     n.listeners.map (fun l => Step.notify l .updated device))

/-- Go `RemoveDevice` will remove the device from the network: delete the key,
then invoke `DeviceRemoved` on each listener in order. -/
def Network.RemoveDevice (n : Network) (device : Device) : Network × List Step :=
  ({ n with devices := mapErase n.devices device.NetworkAddress.String },
   Step.erase device.NetworkAddress.String ::
     n.listeners.map (fun l => Step.notify l .removed device))

/-- Go `Device` will retrieve a device for the supplied address; the `Bool` is
false if no device is found.  Group addresses short-circuit to not-found. -/
def Network.Device (n : Network) (address : Address) : Device × Bool :=
  if address.IsGroup then (Device.zero, false)
  else
    match mapLookup n.devices address.String with
    | some device => (device, true)
    | none => (Device.zero, false)

/-- Go `Devices` will retrieve a slice of all devices. -/
def Network.Devices (n : Network) : List Ziggo.Device := mapValues n.devices

/-- Go `AddNetworkListener` will add a network listener unless the identical
listener is already registered. -/
def Network.AddNetworkListener (n : Network) (listener : ListenerId) : Network :=
  if listener ∈ n.listeners then n
  else { n with listeners := n.listeners ++ [listener] }

/-! ### Persistence codec (MarshalJSON / UnmarshalJSON / Startup) -/

/-- The `serializedNetwork` struct: the JSON shape `{devices, groups}`. -/
structure serializedNetwork where
  Devices : List Ziggo.Device
  Groups : List GroupAddress
deriving DecidableEq, Repr

/-- Go `MarshalJSON` snapshots both maps into the serialized struct (the byte
encoding of that plain struct is Go standard library code). -/
def Network.MarshalJSON (n : Network) : serializedNetwork :=
  { Devices := n.Devices, Groups := n.Groups }

/-- The mutation phase of `UnmarshalJSON`: upsert every decoded device (keyed
by its network-address string) and every decoded group (keyed by group id)
into the existing maps. -/
def Network.applySerialized (n : Network) (state : serializedNetwork) : Network :=
  { n with
    devices := state.Devices.foldl
      (fun m device => mapUpsert m device.NetworkAddress.String device) n.devices,
    groups := state.Groups.foldl
      (fun m group => mapUpsert m group.GroupID group) n.groups }

/-- Go `UnmarshalJSON`: decode fully into a local `state` first (the decode
outcome is the `decoded` argument); on decode failure return the error before
touching either map, otherwise merge. -/
def Network.UnmarshalJSON (n : Network) (decoded : Except String serializedNetwork) :
    Network × Option String :=
  match decoded with
  | .error e => (n, some e)
  | .ok state => (n.applySerialized state, none)

/-- Go `errors.Wrapf(err, "Unable to read content of file %s", filePath)`. -/
def wrapReadError (filePath e : String) : String :=
  "Unable to read content of file " ++ filePath ++ ": " ++ e

/-- Go `errors.Wrapf(err, "Unable to unmarshal network state from file %s", filePath)`. -/
def wrapDecodeError (filePath e : String) : String :=
  "Unable to unmarshal network state from file " ++ filePath ++ ": " ++ e

/-- Go `Startup` will start the network.  The file system is abstracted by
`fileExists` (whether `os.Stat` succeeds) and `readResult` (outer layer: the
`ioutil.ReadFile` outcome; inner layer: the `json.Unmarshal` decode outcome of
the bytes read). -/
def Network.Startup (n : Network) (fileExists : Bool)
    (readResult : Except String (Except String serializedNetwork)) :
    Network × Option String :=
  if n.reset = false ∧ fileExists = true then
    match readResult with
    | .error e => (n, some (wrapReadError n.filePath e))
    | .ok decoded =>
      match n.UnmarshalJSON decoded with
      | (n2, some e) => (n2, some (wrapDecodeError n.filePath e))
      | (n2, none) => (n2, none)
  else (n, none)

/-! ### Sequences of device upserts (for the uniqueness property) -/

/-- One call in a sequence of `AddDevice` / `UpdateDevice` invocations. -/
inductive DevOp where
  | add (d : Device)
  | update (d : Device)
deriving DecidableEq, Repr

/-- The device argument of the call. -/
def DevOp.device : DevOp → Device
  | .add d => d
  | .update d => d

/-- Execute one call (ignoring the notification trace). -/
def Network.applyDevOp (n : Network) (op : DevOp) : Network :=
  match op with
  | .add d => (n.AddDevice d).1
  | .update d => (n.UpdateDevice d).1

/-- Execute a sequence of calls, left to right. -/
def Network.applyDevOps (n : Network) (ops : List DevOp) : Network :=
  ops.foldl Network.applyDevOp n

/-- The device most recently upserted under key `k` by the sequence, if any
(later list elements are later calls). -/
def lastUpsert : List DevOp → String → Option Device
  | [], _ => none
  | op :: rest, k =>
    match lastUpsert rest k with
    | some d => some d
    | none =>
      if op.device.NetworkAddress.String = k then some op.device else none

/-- The registry invariant on the devices map: keys are unique, and each
entry is stored under its own device's network-address string. -/
def goodDeviceMap (m : List (String × Device)) : Prop :=
  (m.map Prod.fst).Nodup ∧ ∀ p ∈ m, p.1 = p.2.NetworkAddress.String

/-- Insert a batch of devices (via `AddDevice`) and groups (via `AddGroup`)
into a registry, in list order. -/
def insertAll (n : Network) (D : List Device) (G : List GroupAddress) : Network :=
  G.foldl Network.AddGroup (D.foldl (fun m x => (m.AddDevice x).1) n)

/-! ### Basic lemmas about the association-list map model -/

theorem mapErase_sublist {K V : Type} [DecidableEq K] (m : List (K × V)) (k : K) :
    List.Sublist (mapErase m k) m := by
  induction m with
  | nil => simp [mapErase]
  | cons p rest ih =>
    rw [mapErase]
    by_cases hp : p.1 = k
    · rw [if_pos hp]
      exact ih.cons p
    · rw [if_neg hp]
      exact ih.cons₂ p

theorem mapErase_keys_ne {K V : Type} [DecidableEq K] (m : List (K × V)) (k : K) :
    ∀ p ∈ mapErase m k, p.1 ≠ k := by
  induction m with
  | nil => simp [mapErase]
  | cons p rest ih =>
    rw [mapErase]
    by_cases hp : p.1 = k
    · rw [if_pos hp]
      exact ih
    · rw [if_neg hp]
      intro q hq
      rcases List.mem_cons.1 hq with hq | hq
      · exact hq ▸ hp
      · exact ih q hq

theorem mapLookup_erase_self {K V : Type} [DecidableEq K] (m : List (K × V)) (k : K) :
    mapLookup (mapErase m k) k = none := by
  induction m with
  | nil => rfl
  | cons p rest ih =>
    by_cases hp : p.1 = k
    · simpa [mapErase, hp] using ih
    · simpa [mapErase, mapLookup, hp] using ih

theorem mapLookup_erase_ne {K V : Type} [DecidableEq K] (m : List (K × V)) (k k' : K)
    (h : k' ≠ k) :
    mapLookup (mapErase m k) k' = mapLookup m k' := by
  induction m with
  | nil => rfl
  | cons p rest ih =>
    by_cases hp : p.1 = k
    · have hne : ¬ p.1 = k' := fun hc => h (hc.symm.trans hp)
      simp [mapErase, mapLookup, hp, hne, Ne.symm h, ih]
    · simp [mapErase, mapLookup, hp, ih]

theorem mapLookup_upsert_self {K V : Type} [DecidableEq K] (m : List (K × V)) (k : K) (v : V) :
    mapLookup (mapUpsert m k v) k = some v := by
  simp [mapUpsert, mapLookup]

theorem mapLookup_upsert_ne {K V : Type} [DecidableEq K] (m : List (K × V)) (k k' : K) (v : V)
    (h : k' ≠ k) :
    mapLookup (mapUpsert m k v) k' = mapLookup m k' := by
  have hne : ¬ k = k' := fun hc => h hc.symm
  simp [mapUpsert, mapLookup, hne, mapLookup_erase_ne m k k' h]

theorem filter_eq_nil_of_forall {α : Type} (p : α → Bool) (l : List α)
    (h : ∀ x ∈ l, p x = false) : l.filter p = [] := by
  induction l with
  | nil => rfl
  | cons a t ih =>
    rw [List.filter_cons, h a (List.mem_cons_self a t)]
    simpa using ih (fun x hx => h x (List.mem_cons_of_mem a hx))

theorem mapLookup_eq_some_key_mem {K V : Type} [DecidableEq K] (m : List (K × V))
    (k : K) (v : V) (h : mapLookup m k = some v) : k ∈ m.map Prod.fst := by
  induction m with
  | nil => simp [mapLookup] at h
  | cons p rest ih =>
    rw [mapLookup] at h
    by_cases hp : p.1 = k
    · simp [← hp]
    · rw [if_neg hp] at h
      simp [ih h]

theorem goodDeviceMap_tail (p : String × Device) (rest : List (String × Device))
    (h : goodDeviceMap (p :: rest)) : goodDeviceMap rest :=
  ⟨(List.nodup_cons.1 h.1).2, fun q hq => h.2 q (List.mem_cons_of_mem p hq)⟩

theorem goodDeviceMap_upsert (m : List (String × Device)) (d : Device)
    (h : goodDeviceMap m) :
    goodDeviceMap (mapUpsert m d.NetworkAddress.String d) := by
  obtain ⟨hnd, hkey⟩ := h
  refine ⟨?_, ?_⟩
  · rw [mapUpsert, List.map_cons, List.nodup_cons]
    refine ⟨?_, ?_⟩
    · intro hmem
      rcases List.mem_map.1 hmem with ⟨q, hq, hqk⟩
      exact mapErase_keys_ne m _ q hq hqk
    · exact List.Nodup.sublist ((mapErase_sublist m _).map Prod.fst) hnd
  · intro q hq
    rcases List.mem_cons.1 hq with hq | hq
    · rw [hq]
    · exact hkey q ((mapErase_sublist m _).subset hq)

/-- Under the registry invariant, the devices snapshot holds at most one entry
per network-address string. -/
theorem values_filter_key_length_le_one (m : List (String × Device)) (k : String)
    (h : goodDeviceMap m) :
    ((mapValues m).filter (fun x => decide (x.NetworkAddress.String = k))).length ≤ 1 := by
  induction m with
  | nil => simp [mapValues]
  | cons p rest ih =>
    have hrest := goodDeviceMap_tail p rest h
    have hp1 : p.1 = p.2.NetworkAddress.String := h.2 p (List.mem_cons_self p rest)
    simp only [mapValues, List.map_cons, List.filter_cons]
    by_cases hp : p.2.NetworkAddress.String = k
    · have hnil : (rest.map (·.2)).filter
          (fun x => decide (x.NetworkAddress.String = k)) = [] := by
        apply filter_eq_nil_of_forall
        intro x hx
        rcases List.mem_map.1 hx with ⟨q, hq, hqx⟩
        have hq1 : q.1 = q.2.NetworkAddress.String :=
          h.2 q (List.mem_cons_of_mem p hq)
        by_cases hxk : x.NetworkAddress.String = k
        · exfalso
          have hqk : q.1 = p.1 := by rw [hq1, hqx, hxk, hp1, hp]
          exact (List.nodup_cons.1 h.1).1 (hqk ▸ List.mem_map_of_mem Prod.fst hq)
        · simpa using hxk
      simp only [hp, decide_True, if_true]
      simp only [mapValues] at hnil
      rw [hnil]
      simp
    · simp only [hp, decide_False, if_false]
      simpa [mapValues] using ih hrest

/-- Under the registry invariant, a device appears in the snapshot under key
`k` exactly when the map lookup at `k` yields it. -/
theorem mem_values_iff_lookup (m : List (String × Device)) (k : String) (d : Device)
    (h : goodDeviceMap m) :
    (d ∈ mapValues m ∧ d.NetworkAddress.String = k) ↔ mapLookup m k = some d := by
  induction m with
  | nil => simp [mapValues, mapLookup]
  | cons p rest ih =>
    have hrest := goodDeviceMap_tail p rest h
    have hp1 : p.1 = p.2.NetworkAddress.String := h.2 p (List.mem_cons_self p rest)
    constructor
    · rintro ⟨hmem, hdk⟩
      simp only [mapValues, List.map_cons, List.mem_cons] at hmem
      rcases hmem with hd | hd
      · have hk : p.1 = k := by rw [hp1, ← hd, hdk]
        rw [mapLookup, if_pos hk, hd]
      · have hrec := (ih hrest).1 ⟨by simpa [mapValues] using hd, hdk⟩
        rw [mapLookup]
        by_cases hpk : p.1 = k
        · exfalso
          have := mapLookup_eq_some_key_mem rest k d hrec
          exact (List.nodup_cons.1 h.1).1 (hpk ▸ this)
        · rw [if_neg hpk]
          exact hrec
    · intro hl
      rw [mapLookup] at hl
      by_cases hpk : p.1 = k
      · rw [if_pos hpk] at hl
        have hd : p.2 = d := Option.some.inj hl
        refine ⟨by simp [mapValues, ← hd], by rw [← hd, ← hp1, hpk]⟩
      · rw [if_neg hpk] at hl
        have hrec := (ih hrest).2 hl
        refine ⟨?_, hrec.2⟩
        simp only [mapValues, List.map_cons, List.mem_cons]
        right
        simpa [mapValues] using hrec.1

/-- Lookup after one `AddDevice`/`UpdateDevice` call. -/
theorem mapLookup_applyDevOp (n : Network) (op : DevOp) (k : String) :
    mapLookup (n.applyDevOp op).devices k =
      if op.device.NetworkAddress.String = k then some op.device
      else mapLookup n.devices k := by
  have key_lookup : ∀ (m : List (String × Device)) (kk : String) (d : Device),
      mapLookup (mapUpsert m kk d) k = if kk = k then some d else mapLookup m k := by
    intro m kk d
    by_cases hc : kk = k
    · rw [if_pos hc, hc, mapLookup_upsert_self]
    · rw [if_neg hc, mapLookup_upsert_ne m kk k d (fun hc2 => hc hc2.symm)]
  cases op with
  | add d =>
    simpa [Network.applyDevOp, Network.AddDevice, DevOp.device] using
      key_lookup n.devices d.NetworkAddress.String d
  | update d =>
    simpa [Network.applyDevOp, Network.UpdateDevice, DevOp.device] using
      key_lookup n.devices d.NetworkAddress.String d

/-- Lookup after a whole sequence of calls: the most recent upsert for the key
wins, otherwise the starting map answers. -/
theorem mapLookup_applyDevOps (ops : List DevOp) :
    ∀ (n : Network) (k : String),
    mapLookup (n.applyDevOps ops).devices k =
      match lastUpsert ops k with
      | some d => some d
      | none => mapLookup n.devices k := by
  induction ops with
  | nil =>
    intro n k
    cases h : lastUpsert [] k with
    | some d => simp [lastUpsert] at h
    | none => rfl
  | cons op rest ih =>
    intro n k
    have hstep : (n.applyDevOps (op :: rest)) = ((n.applyDevOp op).applyDevOps rest) := rfl
    rw [hstep, ih (n.applyDevOp op) k, lastUpsert]
    cases hl : lastUpsert rest k with
    | some d => rfl
    | none =>
      simp only
      rw [mapLookup_applyDevOp]
      by_cases hop : op.device.NetworkAddress.String = k
      · rw [if_pos hop, if_pos hop]
      · rw [if_neg hop, if_neg hop]

/-- The registry invariant is preserved by every call of the sequence. -/
theorem goodDeviceMap_applyDevOps (ops : List DevOp) :
    ∀ (n : Network), goodDeviceMap n.devices →
    goodDeviceMap (n.applyDevOps ops).devices := by
  induction ops with
  | nil =>
    intro n h
    exact h
  | cons op rest ih =>
    intro n h
    have hstep : (n.applyDevOps (op :: rest)) = ((n.applyDevOp op).applyDevOps rest) := rfl
    rw [hstep]
    refine ih (n.applyDevOp op) ?_
    cases op with
    | add d => exact goodDeviceMap_upsert n.devices d h
    | update d => exact goodDeviceMap_upsert n.devices d h

theorem mapErase_eq_self {K V : Type} [DecidableEq K] (m : List (K × V)) (k : K)
    (h : ∀ p ∈ m, p.1 ≠ k) : mapErase m k = m := by
  induction m with
  | nil => rfl
  | cons p rest ih =>
    rw [mapErase, if_neg (h p (List.mem_cons_self p rest)),
      ih (fun q hq => h q (List.mem_cons_of_mem p hq))]

/-- Folding upserts with pairwise-distinct keys onto a map disjoint from them
just prepends the bindings in reverse order. -/
theorem foldl_upsert_entries {K V : Type} [DecidableEq K] (key : V → K) (l : List V) :
    ∀ (m : List (K × V)), (l.map key).Nodup → (∀ v ∈ l, ∀ p ∈ m, p.1 ≠ key v) →
    l.foldl (fun acc v => mapUpsert acc (key v) v) m =
      (l.map (fun v => (key v, v))).reverse ++ m := by
  induction l with
  | nil =>
    intro m _ _
    simp
  | cons v t ih =>
    intro m hnd hdisj
    simp only [List.foldl_cons]
    have hup : mapUpsert m (key v) v = (key v, v) :: m := by
      rw [mapUpsert, mapErase_eq_self m (key v) (hdisj v (List.mem_cons_self v t))]
    rw [hup]
    have hdisj2 : ∀ u ∈ t, ∀ p ∈ (key v, v) :: m, p.1 ≠ key u := by
      intro u hu p hp
      rcases List.mem_cons.1 hp with hp | hp
      · rw [hp]
        intro hc
        exact (List.nodup_cons.1 (by simpa using hnd)).1
          (hc ▸ List.mem_map_of_mem key hu)
      · exact hdisj u (List.mem_cons_of_mem v hu) p hp
    rw [ih ((key v, v) :: m) (by simpa using (List.nodup_cons.1 (by simpa using hnd)).2) hdisj2]
    simp

theorem mapValues_pairs {K V : Type} (key : V → K) (l : List V) :
    mapValues (l.map (fun v => (key v, v))) = l := by
  induction l with
  | nil => rfl
  | cons v t ih =>
    simp only [mapValues, List.map_cons, List.map_map] at ih ⊢
    rw [List.cons.injEq]
    exact ⟨rfl, ih⟩

theorem mapValues_reverse {K V : Type} (m : List (K × V)) :
    mapValues m.reverse = (mapValues m).reverse := by
  simp [mapValues]

/-- The devices-insertion fold touches only the devices map. -/
theorem foldl_addDevice_fields (D : List Device) :
    ∀ n : Network,
    (D.foldl (fun m x => (m.AddDevice x).1) n).devices =
      D.foldl (fun m x => mapUpsert m x.NetworkAddress.String x) n.devices ∧
    (D.foldl (fun m x => (m.AddDevice x).1) n).groups = n.groups := by
  induction D with
  | nil =>
    intro n
    exact ⟨rfl, rfl⟩
  | cons d t ih =>
    intro n
    simp only [List.foldl_cons]
    exact ih ((n.AddDevice d).1)

/-- The groups-insertion fold touches only the groups map. -/
theorem foldl_addGroup_fields (G : List GroupAddress) :
    ∀ n : Network,
    (G.foldl Network.AddGroup n).groups =
      G.foldl (fun m g => mapUpsert m g.GroupID g) n.groups ∧
    (G.foldl Network.AddGroup n).devices = n.devices := by
  induction G with
  | nil =>
    intro n
    exact ⟨rfl, rfl⟩
  | cons g t ih =>
    intro n
    simp only [List.foldl_cons]
    exact ih (n.AddGroup g)

/-! ### Lemmas about the decimal rendering -/

theorem ofDigits_append (l : List Nat) (d : Nat) :
    ofDigits (l ++ [d]) = ofDigits l * 10 + d := by
  simp [ofDigits, List.foldl_append]

theorem ofDigits_toDecimalDigitsAux (fuel n : Nat) (h : n < fuel) :
    ofDigits (toDecimalDigitsAux fuel n) = n := by
  induction fuel generalizing n with
  | zero => omega
  | succ fuel ih =>
    rw [toDecimalDigitsAux]
    by_cases h10 : n < 10
    · simp [h10, ofDigits]
    · rw [if_neg h10, ofDigits_append, ih (n / 10) (by omega)]
      omega

theorem ofDigits_toDecimalDigits (n : Nat) : ofDigits (toDecimalDigits n) = n :=
  ofDigits_toDecimalDigitsAux (n + 1) n (Nat.lt_succ_self n)

theorem toDecimalDigits_inj (a b : Nat) (h : toDecimalDigits a = toDecimalDigits b) :
    a = b := by
  have := congrArg ofDigits h
  rwa [ofDigits_toDecimalDigits, ofDigits_toDecimalDigits] at this

theorem toDecimalDigitsAux_lt_ten (fuel n : Nat) (h : n < fuel) :
    ∀ d ∈ toDecimalDigitsAux fuel n, d < 10 := by
  induction fuel generalizing n with
  | zero => omega
  | succ fuel ih =>
    rw [toDecimalDigitsAux]
    by_cases h10 : n < 10
    · rw [if_pos h10]
      intro d hd
      simp only [List.mem_singleton] at hd
      omega
    · rw [if_neg h10]
      intro d hd
      rcases List.mem_append.1 hd with hd | hd
      · exact ih (n / 10) (by omega) d hd
      · simp only [List.mem_singleton] at hd
        omega

theorem toDecimalDigits_lt_ten (n : Nat) : ∀ d ∈ toDecimalDigits n, d < 10 :=
  toDecimalDigitsAux_lt_ten (n + 1) n (Nat.lt_succ_self n)

theorem digitChar_inj_lt_ten :
    ∀ d < 10, ∀ e < 10, Nat.digitChar d = Nat.digitChar e → d = e := by decide

theorem digitChar_ne_slash : ∀ d < 10, Nat.digitChar d ≠ '/' := by decide

theorem map_digitChar_inj (l1 l2 : List Nat)
    (h1 : ∀ d ∈ l1, d < 10) (h2 : ∀ d ∈ l2, d < 10)
    (h : l1.map Nat.digitChar = l2.map Nat.digitChar) : l1 = l2 := by
  induction l1 generalizing l2 with
  | nil => cases l2 <;> simp_all
  | cons d t ih =>
    cases l2 with
    | nil => simp_all
    | cons e t2 =>
      simp only [List.map_cons, List.cons.injEq] at h
      have hd : d = e :=
        digitChar_inj_lt_ten d (h1 d (by simp)) e (h2 e (by simp)) h.1
      have ht : t = t2 :=
        ih t2 (fun x hx => h1 x (by simp [hx])) (fun x hx => h2 x (by simp [hx])) h.2
      rw [hd, ht]

theorem natToDecimalString_inj (a b : Nat)
    (h : natToDecimalString a = natToDecimalString b) : a = b := by
  have hdata := congrArg String.data h
  simp only [natToDecimalString] at hdata
  exact toDecimalDigits_inj a b
    (map_digitChar_inj _ _ (toDecimalDigits_lt_ten a) (toDecimalDigits_lt_ten b) hdata)

theorem slash_not_mem_natToDecimalString (n : Nat) :
    '/' ∉ (natToDecimalString n).data := by
  simp only [natToDecimalString]
  intro hmem
  rcases List.mem_map.1 hmem with ⟨d, hd, hdc⟩
  exact digitChar_ne_slash d (toDecimalDigits_lt_ten n d hd) hdc

/-- Splitting a character list at a separator that occurs in neither left part
is unambiguous. -/
theorem append_slash_cancel (l1 : List Char) :
    ∀ (l2 r1 r2 : List Char), '/' ∉ l1 → '/' ∉ l2 →
    l1 ++ '/' :: r1 = l2 ++ '/' :: r2 → l1 = l2 ∧ r1 = r2 := by
  induction l1 with
  | nil =>
    intro l2 r1 r2 _ h2 h
    cases l2 with
    | nil => simpa using h
    | cons c t =>
      simp only [List.nil_append, List.cons_append, List.cons.injEq] at h
      exact absurd (h.1 ▸ List.mem_cons_self c t) h2
  | cons c t ih =>
    intro l2 r1 r2 h1 h2 h
    cases l2 with
    | nil =>
      simp only [List.nil_append, List.cons_append, List.cons.injEq] at h
      exact absurd (h.1 ▸ List.mem_cons_self c t) h1
    | cons c2 t2 =>
      simp only [List.cons_append, List.cons.injEq] at h
      have := ih t2 r1 r2 (fun hm => h1 (List.mem_cons_of_mem c hm))
        (fun hm => h2 (List.mem_cons_of_mem c2 hm)) h.2
      exact ⟨by rw [h.1, this.1], this.2⟩

end Ziggo

namespace Ziggo

/-- Claim C5: for every registry state and every group address `g`,
`Device(g)` returns the zero device and `found = false`, regardless of the
contents of the devices map. -/
theorem device_lookup_group_address_not_found (n : Network) (g : GroupAddress) :
    n.Device (Address.group g) = (Device.zero, false) := by
  simp [Network.Device, Address.IsGroup, GroupAddress.IsGroup]

/-- Claim C6: `AddGroup` and `UpdateGroup` produce identical states: both
upsert the address into the groups map under its `GroupID` and change nothing
else. -/
theorem addGroup_eq_updateGroup (n : Network) (a : GroupAddress) :
    n.AddGroup a = n.UpdateGroup a ∧
    (n.AddGroup a).groups = mapUpsert n.groups a.GroupID a ∧
    (n.AddGroup a).devices = n.devices ∧
    (n.AddGroup a).listeners = n.listeners ∧
    (n.AddGroup a).reset = n.reset ∧
    (n.AddGroup a).filePath = n.filePath :=
  ⟨rfl, rfl, rfl, rfl, rfl, rfl⟩

/-- Claim C10: `DeviceAddress.String` is injective — the decimal
`"<networkAddress>/<endpoint>"` rendering never collides for distinct
(network address, endpoint) pairs, so keying the devices map by the string is
equivalent to keying by the pair. -/
theorem deviceAddress_string_injective (a b : DeviceAddress)
    (h : a.String = b.String) : a = b := by
  have hslash : ("/" : String).data = ['/'] := rfl
  have hdata := congrArg String.data h
  simp only [DeviceAddress.String, String.data_append, hslash, List.append_assoc,
    List.singleton_append] at hdata
  have hsplit := append_slash_cancel (natToDecimalString a.NetworkAddress).data
    (natToDecimalString b.NetworkAddress).data
    (natToDecimalString a.Endpoint).data (natToDecimalString b.Endpoint).data
    (slash_not_mem_natToDecimalString a.NetworkAddress)
    (slash_not_mem_natToDecimalString b.NetworkAddress) hdata
  have hn : a.NetworkAddress = b.NetworkAddress :=
    natToDecimalString_inj _ _ (String.ext hsplit.1)
  have he : a.Endpoint = b.Endpoint :=
    natToDecimalString_inj _ _ (String.ext hsplit.2)
  cases a
  cases b
  simp_all

/-- Witness for C10: the hypothesis is satisfiable at a concrete input. -/
theorem deviceAddress_string_injective_witness :
    DeviceAddress.mk 12 3 = DeviceAddress.mk 12 3 :=
  deviceAddress_string_injective ⟨12, 3⟩ ⟨12, 3⟩ rfl

/-- Claim C1: after any sequence of `AddDevice`/`UpdateDevice` calls on a
fresh registry, the `Devices()` snapshot holds at most one entry per distinct
network-address string, and the entry stored under a given string is exactly
the device most recently upserted whose address renders to that string. -/
theorem devices_upsert_sequence_spec (r : Bool) (ops : List DevOp) (k : String)
    (d : Device) :
    (((NewNetworkState r).applyDevOps ops).Devices.filter
      (fun x => decide (x.NetworkAddress.String = k))).length ≤ 1 ∧
    mapLookup ((NewNetworkState r).applyDevOps ops).devices k = lastUpsert ops k ∧
    ((d ∈ ((NewNetworkState r).applyDevOps ops).Devices ∧
        d.NetworkAddress.String = k) ↔ lastUpsert ops k = some d) := by
  have hgood : goodDeviceMap ((NewNetworkState r).applyDevOps ops).devices :=
    goodDeviceMap_applyDevOps ops (NewNetworkState r)
      ⟨List.nodup_nil, by intro p hp; simp [NewNetworkState] at hp⟩
  have hlook := mapLookup_applyDevOps ops (NewNetworkState r) k
  have hbase : mapLookup (NewNetworkState r).devices k = none := rfl
  rw [hbase] at hlook
  have hlook2 : mapLookup ((NewNetworkState r).applyDevOps ops).devices k =
      lastUpsert ops k := by
    rw [hlook]
    cases lastUpsert ops k <;> rfl
  refine ⟨?_, hlook2, ?_⟩
  · exact values_filter_key_length_le_one _ k hgood
  · rw [← hlook2]
    exact mem_values_iff_lookup _ k d hgood

/-- Witness for C1 at a two-call sequence that overwrites one key. -/
theorem devices_upsert_sequence_spec_witness :
    (((NewNetworkState false).applyDevOps
        [DevOp.add Device.zero, DevOp.update { Device.zero with Label := "b" }]).Devices.filter
      (fun x => decide (x.NetworkAddress.String = Device.zero.NetworkAddress.String))).length ≤ 1 ∧
    mapLookup ((NewNetworkState false).applyDevOps
        [DevOp.add Device.zero, DevOp.update { Device.zero with Label := "b" }]).devices
      Device.zero.NetworkAddress.String =
      lastUpsert [DevOp.add Device.zero, DevOp.update { Device.zero with Label := "b" }]
        Device.zero.NetworkAddress.String ∧
    (({ Device.zero with Label := "b" } ∈
        ((NewNetworkState false).applyDevOps
          [DevOp.add Device.zero, DevOp.update { Device.zero with Label := "b" }]).Devices ∧
        ({ Device.zero with Label := "b" } : Device).NetworkAddress.String =
          Device.zero.NetworkAddress.String) ↔
      lastUpsert [DevOp.add Device.zero, DevOp.update { Device.zero with Label := "b" }]
        Device.zero.NetworkAddress.String = some { Device.zero with Label := "b" }) :=
  devices_upsert_sequence_spec false
    [DevOp.add Device.zero, DevOp.update { Device.zero with Label := "b" }]
    Device.zero.NetworkAddress.String { Device.zero with Label := "b" }

/-- Counterexample to C3 as stated: two distinct devices sharing the
network-address string `"0/0"` are both in the inserted collection `D`, yet
after the round trip the first one is gone (the second overwrote it), so the
round-tripped `Devices()` is not set-equal to `D`. -/
theorem roundtrip_set_equality_counterexample :
    (⟨0, ⟨0, 0⟩, 0, 0, 0, 0, 0, [], [], "a"⟩ : Device) ∈
      ([⟨0, ⟨0, 0⟩, 0, 0, 0, 0, 0, [], [], "a"⟩,
        ⟨0, ⟨0, 0⟩, 0, 0, 0, 0, 0, [], [], "b"⟩] : List Device) ∧
    (⟨0, ⟨0, 0⟩, 0, 0, 0, 0, 0, [], [], "a"⟩ : Device) ∉
      (((NewNetworkState false).UnmarshalJSON (Except.ok
        (insertAll (NewNetworkState false)
          [⟨0, ⟨0, 0⟩, 0, 0, 0, 0, 0, [], [], "a"⟩,
           ⟨0, ⟨0, 0⟩, 0, 0, 0, 0, 0, [], [], "b"⟩] []).MarshalJSON)).1).Devices := by
  decide

/-- Claim C3 (amended): if the inserted devices have pairwise-distinct
network-address strings and the inserted groups pairwise-distinct group ids,
then serializing a fresh registry filled with them and deserializing into a
second fresh registry yields `Devices()`/`Groups()` set-equal to the inserted
collections. -/
theorem marshal_unmarshal_roundtrip (D : List Device) (G : List GroupAddress)
    (r1r r2r : Bool) (d : Device) (g : GroupAddress)
    (hD : (D.map (fun x : Device => x.NetworkAddress.String)).Nodup)
    (hG : (G.map (fun x : GroupAddress => x.GroupID)).Nodup) :
    (d ∈ (((NewNetworkState r2r).UnmarshalJSON
        (Except.ok (insertAll (NewNetworkState r1r) D G).MarshalJSON)).1).Devices ↔
      d ∈ D) ∧
    (g ∈ (((NewNetworkState r2r).UnmarshalJSON
        (Except.ok (insertAll (NewNetworkState r1r) D G).MarshalJSON)).1).Groups ↔
      g ∈ G) := by
  have hfresh1d : (NewNetworkState r1r).devices = [] := rfl
  have hfresh1g : (NewNetworkState r1r).groups = [] := rfl
  have hfresh2d : (NewNetworkState r2r).devices = [] := rfl
  have hfresh2g : (NewNetworkState r2r).groups = [] := rfl
  have hdev1 : (insertAll (NewNetworkState r1r) D G).devices =
      (D.map (fun v => (v.NetworkAddress.String, v))).reverse := by
    rw [insertAll, (foldl_addGroup_fields G _).2, (foldl_addDevice_fields D _).1,
      hfresh1d]
    have hfold := foldl_upsert_entries (fun x : Device => x.NetworkAddress.String)
      D [] hD (by intro v _ p hp; simp at hp)
    simp only at hfold
    rw [hfold, List.append_nil]
  have hgrp1 : (insertAll (NewNetworkState r1r) D G).groups =
      (G.map (fun v => (v.GroupID, v))).reverse := by
    rw [insertAll, (foldl_addGroup_fields G _).1, (foldl_addDevice_fields D _).2,
      hfresh1g]
    have hfold := foldl_upsert_entries (fun x : GroupAddress => x.GroupID)
      G [] hG (by intro v _ p hp; simp at hp)
    simp only at hfold
    rw [hfold, List.append_nil]
  have hmar : (insertAll (NewNetworkState r1r) D G).MarshalJSON =
      serializedNetwork.mk D.reverse G.reverse := by
    have h1 : (insertAll (NewNetworkState r1r) D G).Devices = D.reverse := by
      simp only [Network.Devices]
      rw [hdev1, mapValues_reverse,
        mapValues_pairs (fun v : Device => v.NetworkAddress.String) D]
    have h2 : (insertAll (NewNetworkState r1r) D G).Groups = G.reverse := by
      simp only [Network.Groups]
      rw [hgrp1, mapValues_reverse,
        mapValues_pairs (fun v : GroupAddress => v.GroupID) G]
    simp only [Network.MarshalJSON]
    rw [h1, h2]
  have hdev2 : (((NewNetworkState r2r).UnmarshalJSON
      (Except.ok (insertAll (NewNetworkState r1r) D G).MarshalJSON)).1).devices =
      (D.reverse.map (fun v => (v.NetworkAddress.String, v))).reverse := by
    rw [hmar]
    simp only [Network.UnmarshalJSON, Network.applySerialized]
    rw [hfresh2d]
    have hDrev : (D.reverse.map (fun x : Device => x.NetworkAddress.String)).Nodup := by
      rw [List.map_reverse]
      exact List.nodup_reverse.2 hD
    have hfold := foldl_upsert_entries (fun x : Device => x.NetworkAddress.String)
      D.reverse [] hDrev (by intro v _ p hp; simp at hp)
    simp only at hfold
    rw [hfold, List.append_nil]
  have hgrp2 : (((NewNetworkState r2r).UnmarshalJSON
      (Except.ok (insertAll (NewNetworkState r1r) D G).MarshalJSON)).1).groups =
      (G.reverse.map (fun v => (v.GroupID, v))).reverse := by
    rw [hmar]
    simp only [Network.UnmarshalJSON, Network.applySerialized]
    rw [hfresh2g]
    have hGrev : (G.reverse.map (fun x : GroupAddress => x.GroupID)).Nodup := by
      rw [List.map_reverse]
      exact List.nodup_reverse.2 hG
    have hfold := foldl_upsert_entries (fun x : GroupAddress => x.GroupID)
      G.reverse [] hGrev (by intro v _ p hp; simp at hp)
    simp only at hfold
    rw [hfold, List.append_nil]
  have hdevs : (((NewNetworkState r2r).UnmarshalJSON
      (Except.ok (insertAll (NewNetworkState r1r) D G).MarshalJSON)).1).Devices = D := by
    simp only [Network.Devices]
    rw [hdev2, mapValues_reverse,
      mapValues_pairs (fun v : Device => v.NetworkAddress.String) D.reverse,
      List.reverse_reverse]
  have hgrps : (((NewNetworkState r2r).UnmarshalJSON
      (Except.ok (insertAll (NewNetworkState r1r) D G).MarshalJSON)).1).Groups = G := by
    simp only [Network.Groups]
    rw [hgrp2, mapValues_reverse,
      mapValues_pairs (fun v : GroupAddress => v.GroupID) G.reverse,
      List.reverse_reverse]
  rw [hdevs, hgrps]
  exact ⟨Iff.rfl, Iff.rfl⟩

/-- Witness for C3 at two devices with distinct keys and one group. -/
theorem marshal_unmarshal_roundtrip_witness :
    ((Device.zero ∈ (((NewNetworkState false).UnmarshalJSON
        (Except.ok (insertAll (NewNetworkState false)
          [Device.zero, { Device.zero with NetworkAddress := ⟨1, 0⟩ }]
          [⟨2, "g"⟩]).MarshalJSON)).1).Devices ↔
      Device.zero ∈ [Device.zero, { Device.zero with NetworkAddress := ⟨1, 0⟩ }]) ∧
    ((⟨2, "g"⟩ : GroupAddress) ∈ (((NewNetworkState false).UnmarshalJSON
        (Except.ok (insertAll (NewNetworkState false)
          [Device.zero, { Device.zero with NetworkAddress := ⟨1, 0⟩ }]
          [⟨2, "g"⟩]).MarshalJSON)).1).Groups ↔
      (⟨2, "g"⟩ : GroupAddress) ∈ ([⟨2, "g"⟩] : List GroupAddress))) :=
  marshal_unmarshal_roundtrip
    [Device.zero, { Device.zero with NetworkAddress := ⟨1, 0⟩ }] [⟨2, "g"⟩]
    false false Device.zero ⟨2, "g"⟩ (by decide) (by decide)

/-- Helper: folding `AddNetworkListener` over fresh identities appends them in
order. -/
theorem listeners_foldl_addNetworkListener (ls : List ListenerId) :
    ∀ (acc : Network), ls.Nodup → (∀ l ∈ ls, l ∉ acc.listeners) →
    (ls.foldl Network.AddNetworkListener acc).listeners = acc.listeners ++ ls := by
  induction ls with
  | nil =>
    intro acc _ _
    simp
  | cons l t ih =>
    intro acc hnd hdisj
    simp only [List.foldl_cons]
    have hl : l ∉ acc.listeners := hdisj l (List.mem_cons_self l t)
    rw [Network.AddNetworkListener, if_neg hl]
    have hrec := ih { acc with listeners := acc.listeners ++ [l] }
      (List.Nodup.of_cons hnd)
      (by
        intro x hx hmem
        simp only [List.mem_append, List.mem_singleton] at hmem
        rcases hmem with hmem | hxl
        · exact hdisj x (List.mem_cons_of_mem l hx) hmem
        · exact (List.nodup_cons.1 hnd).1 (hxl ▸ hx))
    rw [hrec]
    simp

/-- Claim C2: with listeners `ls` registered in order on a fresh registry, a
single `AddDevice d` first stores `d` in the devices map and then notifies
`DeviceAdded d` to each listener exactly once, in registration order, before
returning; the stored entry is visible under the device's key. -/
theorem addDevice_notifies_listeners_in_order (ls : List ListenerId) (d : Device)
    (r : Bool) (hnd : ls.Nodup) :
    ((ls.foldl Network.AddNetworkListener (NewNetworkState r)).AddDevice d).2 =
      Step.store d.NetworkAddress.String d ::
        ls.map (fun l => Step.notify l EventKind.added d) ∧
    mapLookup ((ls.foldl Network.AddNetworkListener (NewNetworkState r)).AddDevice d).1.devices
      d.NetworkAddress.String = some d := by
  have hl : (ls.foldl Network.AddNetworkListener (NewNetworkState r)).listeners = ls := by
    have h := listeners_foldl_addNetworkListener ls (NewNetworkState r) hnd
      (by intro l _ hmem; simp [NewNetworkState] at hmem)
    simpa [NewNetworkState] using h
  exact ⟨by simp [Network.AddDevice, hl], mapLookup_upsert_self _ _ _⟩

/-- Witness for C2 at listeners `[1, 2, 3]` and the zero device. -/
theorem addDevice_notifies_listeners_in_order_witness :
    (([1, 2, 3].foldl Network.AddNetworkListener (NewNetworkState false)).AddDevice
        Device.zero).2 =
      Step.store Device.zero.NetworkAddress.String Device.zero ::
        [1, 2, 3].map (fun l => Step.notify l EventKind.added Device.zero) ∧
    mapLookup (([1, 2, 3].foldl Network.AddNetworkListener
        (NewNetworkState false)).AddDevice Device.zero).1.devices
      Device.zero.NetworkAddress.String = some Device.zero :=
  addDevice_notifies_listeners_in_order [1, 2, 3] Device.zero false (by decide)

/-- Claim C7: `RemoveDevice d` deletes the entry keyed by the device's
network-address string (whatever value was stored there), leaves every other
key untouched, and notifies `DeviceRemoved d` to every registered listener in
order — also when no entry existed under that key. -/
theorem removeDevice_spec (n : Network) (d : Device) (k : String)
    (hk : k ≠ d.NetworkAddress.String) :
    mapLookup (n.RemoveDevice d).1.devices d.NetworkAddress.String = none ∧
    mapLookup (n.RemoveDevice d).1.devices k = mapLookup n.devices k ∧
    (n.RemoveDevice d).2 =
      Step.erase d.NetworkAddress.String ::
        n.listeners.map (fun l => Step.notify l EventKind.removed d) ∧
    (n.RemoveDevice d).1.groups = n.groups ∧
    (n.RemoveDevice d).1.listeners = n.listeners :=
  ⟨mapLookup_erase_self n.devices _, mapLookup_erase_ne n.devices _ k hk, rfl, rfl, rfl⟩

/-- Witness for C7 on a fresh registry (key absent) and the zero device. -/
theorem removeDevice_spec_witness :
    mapLookup ((NewNetworkState false).RemoveDevice Device.zero).1.devices
      Device.zero.NetworkAddress.String = none ∧
    mapLookup ((NewNetworkState false).RemoveDevice Device.zero).1.devices "x" =
      mapLookup (NewNetworkState false).devices "x" ∧
    ((NewNetworkState false).RemoveDevice Device.zero).2 =
      Step.erase Device.zero.NetworkAddress.String ::
        (NewNetworkState false).listeners.map
          (fun l => Step.notify l EventKind.removed Device.zero) ∧
    ((NewNetworkState false).RemoveDevice Device.zero).1.groups =
      (NewNetworkState false).groups ∧
    ((NewNetworkState false).RemoveDevice Device.zero).1.listeners =
      (NewNetworkState false).listeners :=
  removeDevice_spec (NewNetworkState false) Device.zero "x" (by decide)

/-- Helper: a fold of upserts whose keys all avoid `k` does not change the
lookup at `k`. -/
theorem mapLookup_foldl_upsert_not_mem {K V : Type} [DecidableEq K] (key : V → K)
    (l : List V) :
    ∀ (m : List (K × V)) (k : K), (∀ v ∈ l, key v ≠ k) →
    mapLookup (l.foldl (fun acc v => mapUpsert acc (key v) v) m) k = mapLookup m k := by
  induction l with
  | nil =>
    intro m k _
    rfl
  | cons v t ih =>
    intro m k hk
    simp only [List.foldl_cons]
    rw [ih _ k (fun x hx => hk x (List.mem_cons_of_mem v hx)),
      mapLookup_upsert_ne _ _ _ _ (Ne.symm (hk v (List.mem_cons_self v t)))]

/-- Claim C4: deserialization merges rather than replaces — a device `X`
already present survives unmarshalling a snapshot holding only a device `Y`
with a different key (both end up present), and in general any key absent
from the snapshot (device or group) keeps its previous lookup result. -/
theorem unmarshal_merge_preserves (n : Network) (X Y : Device) (s : serializedNetwork)
    (k : String) (gid : Nat)
    (hX : mapLookup n.devices X.NetworkAddress.String = some X)
    (hne : Y.NetworkAddress.String ≠ X.NetworkAddress.String)
    (hk : ∀ x ∈ s.Devices, x.NetworkAddress.String ≠ k)
    (hg : ∀ g ∈ s.Groups, g.GroupID ≠ gid) :
    mapLookup ((n.UnmarshalJSON (Except.ok ⟨[Y], []⟩)).1).devices
      X.NetworkAddress.String = some X ∧
    mapLookup ((n.UnmarshalJSON (Except.ok ⟨[Y], []⟩)).1).devices
      Y.NetworkAddress.String = some Y ∧
    mapLookup ((n.UnmarshalJSON (Except.ok s)).1).devices k = mapLookup n.devices k ∧
    mapLookup ((n.UnmarshalJSON (Except.ok s)).1).groups gid = mapLookup n.groups gid := by
  refine ⟨?_, ?_, ?_, ?_⟩
  · simp only [Network.UnmarshalJSON, Network.applySerialized, List.foldl_cons,
      List.foldl_nil]
    rw [mapLookup_upsert_ne _ _ _ _ (Ne.symm hne)]
    exact hX
  · simp only [Network.UnmarshalJSON, Network.applySerialized, List.foldl_cons,
      List.foldl_nil]
    exact mapLookup_upsert_self _ _ _
  · simp only [Network.UnmarshalJSON, Network.applySerialized]
    exact mapLookup_foldl_upsert_not_mem _ s.Devices n.devices k hk
  · simp only [Network.UnmarshalJSON, Network.applySerialized]
    exact mapLookup_foldl_upsert_not_mem _ s.Groups n.groups gid hg

/-- Witness for C4: a registry holding the zero device plus a snapshot holding
one device at a different address. -/
theorem unmarshal_merge_preserves_witness :
    mapLookup ((((NewNetworkState false).AddDevice Device.zero).1.UnmarshalJSON
        (Except.ok ⟨[{ Device.zero with NetworkAddress := ⟨1, 0⟩ }], []⟩)).1).devices
      Device.zero.NetworkAddress.String = some Device.zero ∧
    mapLookup ((((NewNetworkState false).AddDevice Device.zero).1.UnmarshalJSON
        (Except.ok ⟨[{ Device.zero with NetworkAddress := ⟨1, 0⟩ }], []⟩)).1).devices
      ({ Device.zero with NetworkAddress := ⟨1, 0⟩ } : Device).NetworkAddress.String =
        some { Device.zero with NetworkAddress := ⟨1, 0⟩ } ∧
    mapLookup ((((NewNetworkState false).AddDevice Device.zero).1.UnmarshalJSON
        (Except.ok ⟨[], []⟩)).1).devices "q" =
      mapLookup ((NewNetworkState false).AddDevice Device.zero).1.devices "q" ∧
    mapLookup ((((NewNetworkState false).AddDevice Device.zero).1.UnmarshalJSON
        (Except.ok ⟨[], []⟩)).1).groups 7 =
      mapLookup ((NewNetworkState false).AddDevice Device.zero).1.groups 7 :=
  unmarshal_merge_preserves ((NewNetworkState false).AddDevice Device.zero).1
    Device.zero { Device.zero with NetworkAddress := ⟨1, 0⟩ } ⟨[], []⟩ "q" 7
    (by decide) (by decide) (by decide) (by decide)

/-- Claim C8: `Startup` is a successful no-op when the reset flag is set or
the state file does not exist; otherwise a read failure or a decode failure
is returned as a wrapped error with the state untouched, and a successful
read+decode merges the decoded snapshot. -/
theorem startup_spec (n1 n2 n3 n4 n5 : Network) (fe : Bool)
    (rr1 rr2 : Except String (Except String serializedNetwork))
    (e1 e2 : String) (s : serializedNetwork)
    (h1 : n1.reset = true) (h3 : n3.reset = false) (h4 : n4.reset = false)
    (h5 : n5.reset = false) :
    n1.Startup fe rr1 = (n1, none) ∧
    n2.Startup false rr2 = (n2, none) ∧
    n3.Startup true (Except.error e1) = (n3, some (wrapReadError n3.filePath e1)) ∧
    n4.Startup true (Except.ok (Except.error e2)) =
      (n4, some (wrapDecodeError n4.filePath e2)) ∧
    n5.Startup true (Except.ok (Except.ok s)) = (n5.applySerialized s, none) := by
  refine ⟨?_, ?_, ?_, ?_, ?_⟩
  · simp [Network.Startup, h1]
  · simp [Network.Startup]
  · simp [Network.Startup, h3]
  · simp [Network.Startup, h4, Network.UnmarshalJSON]
  · simp [Network.Startup, h5, Network.UnmarshalJSON]

/-- Witness for C8 at concrete registries, outcomes and snapshot. -/
theorem startup_spec_witness :
    (NewNetworkState true).Startup true (Except.error "a") = (NewNetworkState true, none) ∧
    (NewNetworkState false).Startup false (Except.error "b") =
      (NewNetworkState false, none) ∧
    (NewNetworkState false).Startup true (Except.error "x") =
      (NewNetworkState false,
        some (wrapReadError (NewNetworkState false).filePath "x")) ∧
    (NewNetworkState false).Startup true (Except.ok (Except.error "y")) =
      (NewNetworkState false,
        some (wrapDecodeError (NewNetworkState false).filePath "y")) ∧
    (NewNetworkState false).Startup true (Except.ok (Except.ok ⟨[], []⟩)) =
      ((NewNetworkState false).applySerialized ⟨[], []⟩, none) :=
  startup_spec (NewNetworkState true) (NewNetworkState false) (NewNetworkState false)
    (NewNetworkState false) (NewNetworkState false) true (Except.error "a")
    (Except.error "b") "x" "y" ⟨[], []⟩ rfl rfl rfl rfl

/-- Claim C9: when the decode step fails, `UnmarshalJSON` returns the error
and leaves both the devices map and the groups map exactly as they were. -/
theorem unmarshal_decode_failure_atomic (n : Network) (e : String) :
    (n.UnmarshalJSON (Except.error e)).1.devices = n.devices ∧
    (n.UnmarshalJSON (Except.error e)).1.groups = n.groups ∧
    (n.UnmarshalJSON (Except.error e)).2 = some e :=
  ⟨rfl, rfl, rfl⟩

end Ziggo
